import Mathlib

/-!
Shallow embedding of `src/lib/routing.py` (kodi-plugin-routing).

The Python module compiles route pattern strings into `UrlRule` objects
(a `{name}`-style template plus keyword list, and an anchored regex), and a
`Plugin` holding an ordered table from view functions to their rules.

Modelling conventions:
* Python strings are Lean `String`s; we work on their `List Char` data.
* Python regex behaviour is embedded for the concrete regexes the module
  builds: named groups `(?P<n>[^/]+?)` (lazy one-or-more non-slash) and
  `(?P<n>.*)` (greedy any-but-newline), literal characters, `^` anchor and
  `$` (which in Python matches at the end of the string or just before one
  final newline).  Literal pattern characters are modelled as matching
  themselves; this is faithful as long as literals contain no regex
  metacharacters, which the pattern language assumes.
* Fallible operations return `Option`/`Except`; the caught Python
  exceptions (`TypeError` on `%` arity, `KeyError` on `format`) become the
  `none` branches; `RoutingError` becomes an `Except.error` carrying the
  formatted message.
* Scanning functions take a fuel argument equal to the input length; each
  step consumes at least one character, so the fuel never runs out.  This
  keeps the definitions structurally recursive so that the kernel can
  evaluate them on concrete patterns.
-/

/-- Python character class `[A-z]` used by the module's regexes:
ASCII codes 65 (`A`) through 122 (`z`). -/
def isAz (c : Char) : Bool := 65 ≤ c.toNat && c.toNat ≤ 122

/-- Embedding of `pattern.rstrip('/')` (routing.py line 136): removes ALL
trailing `/` characters. -/
def rstripSlashes (s : String) : String :=
  String.mk ((s.data.reverse.dropWhile (fun c => c == '/')).reverse)

/-- Token of the reverse-generation template `self._pattern`: a literal
character or a `{name}` slot produced from a placeholder. -/
inductive TTok where
  | lit (c : Char)
  | slot (name : String)
deriving DecidableEq

/-- Token of the compiled matcher `self._regex`: a literal character, a
segment group `(?P<name>[^/]+?)` or a path group `(?P<name>.*)`. -/
inductive RTok where
  | lit (c : Char)
  | seg (name : String)
  | pth (name : String)
deriving DecidableEq

/-- Match of the placeholder regex `kw_pattern = <(?:[^:]+:)?([A-z]+)>`
starting exactly at the head of the character list.  Returns the captured
name and the remaining characters after `>`.  The optional prefix group is
greedy-preferred: `[^:]+` runs up to the first colon (it may cross `>`
characters), and on failure of the tail the engine retries with the
optional group unmatched. -/
def kwMatchAt : List Char → Option (String × List Char)
  | '<' :: rest =>
    let optA : Option (String × List Char) :=
      match rest.dropWhile (fun c => !(c == ':')) with
      | ':' :: afterColon =>
        if (rest.takeWhile (fun c => !(c == ':'))).isEmpty then none
        else
          match afterColon.dropWhile isAz with
          | '>' :: tail =>
            if (afterColon.takeWhile isAz).isEmpty then none
            else some (String.mk (afterColon.takeWhile isAz), tail)
          | _ => none
      | _ => none
    match optA with
    | some r => some r
    | none =>
      match rest.dropWhile isAz with
      | '>' :: tail =>
        if (rest.takeWhile isAz).isEmpty then none
        else some (String.mk (rest.takeWhile isAz), tail)
      | _ => none
  | _ => none

/-- Left-to-right non-overlapping scan with `kw_pattern`, producing the
template tokens of `re.sub(kw_pattern, '{\\1}', pattern)` (routing.py line
138).  The keyword list of `re.findall(kw_pattern, pattern)` (line 139) is
the list of slot names of the result, since both operations use the same
regex over the same string.  Fuel is the input length; every step consumes
at least one character. -/
def kwScanAux : Nat → List Char → List TTok
  | 0, _ => []
  | _, [] => []
  | fuel + 1, c :: rest =>
    match kwMatchAt (c :: rest) with
    | some (nm, tail) => TTok.slot nm :: kwScanAux fuel tail
    | none => TTok.lit c :: kwScanAux fuel rest

/-- Template scan over a whole character list. -/
def kwScan (cs : List Char) : List TTok := kwScanAux cs.length cs

/-- Match, at the head of the list, of a placeholder that the substitutions
`re.sub('<([A-z]+)>', '<string:\\1>', p)` followed by
`re.sub('<string:([A-z]+)>', '(?P<\\1>[^/]+?)', p)` (routing.py lines
141-142) turn into a segment group: either `<name>` or `<string:name>`. -/
def segMatchAt : List Char → Option (String × List Char)
  | '<' :: rest =>
    match rest.dropWhile isAz with
    | '>' :: tail =>
      if (rest.takeWhile isAz).isEmpty then none
      else some (String.mk (rest.takeWhile isAz), tail)
    | _ =>
      if rest.take 7 = "string:".data then
        match (rest.drop 7).dropWhile isAz with
        | '>' :: tail =>
          if ((rest.drop 7).takeWhile isAz).isEmpty then none
          else some (String.mk ((rest.drop 7).takeWhile isAz), tail)
        | _ => none
      else none
  | _ => none

/-- Match, at the head of the list, of a `<path:name>` placeholder, turned
into `(?P<name>.*)` by `re.sub('<path:([A-z]+)>', '(?P<\\1>.*)', p)`
(routing.py line 143). -/
def pathMatchAt : List Char → Option (String × List Char)
  | '<' :: rest =>
    if rest.take 5 = "path:".data then
      match (rest.drop 5).dropWhile isAz with
      | '>' :: tail =>
        if ((rest.drop 5).takeWhile isAz).isEmpty then none
        else some (String.mk ((rest.drop 5).takeWhile isAz), tail)
      | _ => none
    else none
  | _ => none

/-- Scan building the compiled regex tokens.  The three sequential
`re.sub` passes of routing.py lines 141-143 are equivalent to one scan of
the original pattern because every placeholder match starts with `<`,
contains no interior `<`, and no replacement text ever forms a later
pass's pattern or combines with its neighbours into one. -/
def regexScanAux : Nat → List Char → List RTok
  | 0, _ => []
  | _, [] => []
  | fuel + 1, c :: rest =>
    match segMatchAt (c :: rest) with
    | some (nm, tail) => RTok.seg nm :: regexScanAux fuel tail
    | none =>
      match pathMatchAt (c :: rest) with
      | some (nm, tail) => RTok.pth nm :: regexScanAux fuel tail
      | none => RTok.lit c :: regexScanAux fuel rest

/-- Regex scan over a whole character list. -/
def regexScan (cs : List Char) : List RTok := regexScanAux cs.length cs

/-- Compiled form of one route, embedding class `UrlRule` (routing.py
lines 133-145): `template` is `self._pattern`, `rtoks` is
`self._regex`. -/
structure UrlRule where
  template : List TTok
  rtoks : List RTok
deriving DecidableEq

/-- Embedding of `self._keywords = re.findall(kw_pattern, pattern)`: the
slot names of the template in order (both artifacts come from the same
regex over the same string, so the findall result is exactly the slot
sequence of the substitution result). -/
def UrlRule.keywords (r : UrlRule) : List String :=
  r.template.filterMap (fun t =>
    match t with
    | TTok.slot n => some n
    | TTok.lit _ => none)

/-- Embedding of `UrlRule.__init__` (routing.py lines 135-145). -/
def urlRule (pattern : String) : UrlRule :=
  let p := rstripSlashes pattern
  ⟨kwScan p.data, regexScan p.data⟩

/-- Names of the named groups of the compiled regex, in order. -/
def rnames : List RTok → List String
  | [] => []
  | RTok.lit _ :: ts => rnames ts
  | RTok.seg n :: ts => n :: rnames ts
  | RTok.pth n :: ts => n :: rnames ts

/-- Embedding of the anchored backtracking match of
`re.compile('^' + p + '$').search(path)` followed by `groupdict()`
(routing.py lines 145-154).  A segment group `[^/]+?` is lazy: capture
lengths are tried from 1 upward, bounded by the run of non-`/` characters.
A path group `.*` is greedy: capture lengths are tried from the run of
non-newline characters downward to 0.  After all tokens, `$` accepts the
end of the string or a single remaining final newline. -/
def reMatch : List RTok → List Char → Option (List (String × String))
  | [], ds => if ds = [] ∨ ds = ['\n'] then some [] else none
  | RTok.lit c :: ts, ds =>
    match ds with
    | [] => none
    | d :: ds' => if d = c then reMatch ts ds' else none
  | RTok.seg n :: ts, ds =>
    (List.range' 1 (ds.takeWhile (fun c => !(c == '/'))).length).findSome?
      (fun k => (reMatch ts (ds.drop k)).map
        (fun m => (n, String.mk (ds.take k)) :: m))
  | RTok.pth n :: ts, ds =>
    ((List.range ((ds.takeWhile (fun c => !(c == '\n'))).length + 1)).reverse).findSome?
      (fun k => (reMatch ts (ds.drop k)).map
        (fun m => (n, String.mk (ds.take k)) :: m))

/-- Embedding of `UrlRule.match` (routing.py lines 147-154); named
`matchPath` because `match` is reserved in Lean.  The successful result is
the `groupdict()` as an association list in group order. -/
def UrlRule.matchPath (r : UrlRule) (path : String) :
    Option (List (String × String)) :=
  reMatch r.rtoks path.data

/-- Lookup in an association list, modelling Python dict access for the
string-keyed dicts of the module (whose keys are unique). -/
def alLookup : List (String × String) → String → Option String
  | [], _ => none
  | (k, v) :: rest, key => if k = key then some v else alLookup rest key

/-- Embedding of `self._pattern.format(**url_kwargs)` over template
tokens: each `{name}` slot is replaced by the named value; a missing name
raises `KeyError`, modelled as `none` (caught at routing.py line 175). -/
def renderFormat : List TTok → List (String × String) → Option String
  | [], _ => some ""
  | TTok.lit c :: ts, kv =>
    (renderFormat ts kv).map (fun s => String.singleton c ++ s)
  | TTok.slot n :: ts, kv =>
    match alLookup kv n with
    | some v => (renderFormat ts kv).map (fun s => v ++ s)
    | none => none

/-- Embedding of `re.sub(r'{[A-z]+}', r'%s', self._pattern) % args`
(routing.py line 163) once the argument count is known to equal the slot
count: slots are filled with the positional values left to right. -/
def renderPositional : List TTok → List String → String
  | [], _ => ""
  | TTok.lit c :: ts, as => String.singleton c ++ renderPositional ts as
  | TTok.slot _ :: _, [] => ""
  | TTok.slot _ :: ts, a :: as => a ++ renderPositional ts as

/-- Uppercase hexadecimal digit of a value below 16. -/
def toHexDigit (n : Nat) : Char :=
  if n < 10 then Char.ofNat (48 + n) else Char.ofNat (55 + n)

/-- UTF-8 bytes of a character, as used by `urllib.parse.quote` when
percent-encoding. -/
def utf8Bytes (c : Char) : List Nat :=
  let n := c.toNat
  if n < 128 then [n]
  else if n < 2048 then [192 + n / 64, 128 + n % 64]
  else if n < 65536 then [224 + n / 4096, 128 + (n / 64) % 64, 128 + n % 64]
  else [240 + n / 262144, 128 + (n / 4096) % 64, 128 + (n / 64) % 64, 128 + n % 64]

/-- Characters `urllib.parse.quote_plus` leaves unescaped (letters, digits
and `_.-~`); a space becomes `+` and everything else is percent-encoded. -/
def isUrlSafe (c : Char) : Bool :=
  c.isAlphanum || c == '_' || c == '.' || c == '-' || c == '~'

/-- Embedding of `urllib.parse.quote_plus` on one string. -/
def quotePlus (s : String) : String :=
  s.data.foldr (fun c acc =>
    (if c = ' ' then "+"
     else if isUrlSafe c then String.singleton c
     else String.join ((utf8Bytes c).map
       (fun b => String.mk ['%', toHexDigit (b / 16), toHexDigit (b % 16)]))) ++ acc) ""

/-- Embedding of `urllib.parse.urlencode` on an insertion-ordered dict
of strings (routing.py line 172). -/
def urlencode (kvs : List (String × String)) : String :=
  String.intercalate "&" (kvs.map (fun kv => quotePlus kv.1 ++ "=" ++ quotePlus kv.2))

/-- Embedding of `UrlRule.make_path` (routing.py lines 156-176).  Both
positional and keyword arguments at once give `None`; positional mode
fails (`TypeError`, caught) when the argument count differs from the slot
count; keyword mode partitions the keyword arguments into placeholder
values and query-string extras and fails (`KeyError`, caught) when a
placeholder name is missing. -/
def UrlRule.make_path (r : UrlRule) (args : List String)
    (kwargs : List (String × String)) : Option String :=
  if args ≠ [] ∧ kwargs ≠ [] then none
  else if args ≠ [] then
    if args.length = r.keywords.length then
      some (renderPositional r.template args)
    else none
  else
    match renderFormat r.template
        (kwargs.filter (fun kv => r.keywords.contains kv.1)) with
    | some s => some (s ++
        (if (kwargs.filter (fun kv => !(r.keywords.contains kv.1))).isEmpty
         then ""
         else "?" ++ urlencode
           (kwargs.filter (fun kv => !(r.keywords.contains kv.1)))))
    | none => none

/-- View function identity: the source keys its route table on the
function object and uses `__name__` in error messages; we model a handler
as an identity plus that name. -/
structure Handler where
  id : Nat
  name : String
deriving DecidableEq

/-- Lookup of `self._rules[func]` in the insertion-ordered route table
`self._rules` (a Python dict from function to list of rules), modelled as
an association list. -/
def lookupRules : List (Handler × List UrlRule) → Handler → Option (List UrlRule)
  | [], _ => none
  | (f, rs) :: rest, g => if f = g then some rs else lookupRules rest g

/-- First rule of a handler's list whose `match` succeeds, with its
extracted arguments (inner loop of `Plugin._dispatch`, routing.py lines
124-129). -/
def firstRuleMatch : List UrlRule → String → Option (List (String × String))
  | [], _ => none
  | r :: rs, path =>
    match r.matchPath path with
    | some kw => some kw
    | none => firstRuleMatch rs path

/-- Embedding of `Plugin._dispatch` (routing.py lines 122-130) as a trace:
the list of handler invocations performed (with their keyword arguments)
and whether `RoutingError` was raised.  The source returns right after the
first successful invocation, so a successful run invokes exactly one
handler and an exhausted scan raises. -/
def dispatchRun (table : List (Handler × List UrlRule)) (path : String) :
    List (Handler × List (String × String)) × Bool :=
  match table with
  | [] => ([], true)
  | (f, rs) :: rest =>
    match firstRuleMatch rs path with
    | some kw => ([(f, kw)], false)
    | none => dispatchRun rest path

/-- First rule of a handler's list whose `make_path` succeeds (loop of
`Plugin.url_for`, routing.py lines 82-85). -/
def firstPath : List UrlRule → List String → List (String × String) → Option String
  | [], _, _ => none
  | r :: rs, args, kwargs =>
    match r.make_path args kwargs with
    | some p => some p
    | none => firstPath rs args kwargs

/-- Embedding of `path.startswith('/')` as used by `url_for_path`. -/
def startsWithSlash (s : String) : Bool :=
  match s.data with
  | c :: _ => c == '/'
  | [] => false

/-- Embedding of `Plugin.url_for_path` (routing.py lines 89-94): prepend a
`/` when absent, then prefix the base URL. -/
def urlForPath (base_url path : String) : String :=
  base_url ++ (if startsWithSlash path then path else "/" ++ path)

/-- Single-quote character, used by the Python `repr` of strings. -/
def sQuote : String := String.singleton (Char.ofNat 39)

/-- Python `repr` of a simple string (no quote or backslash escapes
needed). -/
def pyStrRepr (s : String) : String := sQuote ++ s ++ sQuote

/-- Python `str` of a tuple of strings, as interpolated by `format` into
the `url_for` error message. -/
def pyTupleRepr (l : List String) : String :=
  "(" ++ String.intercalate ", " (l.map pyStrRepr) ++
    (if l.length == 1 then ",)" else ")")

/-- Python `str` of a dict of strings, as interpolated by `format` into
the `url_for` error message. -/
def pyDictRepr (l : List (String × String)) : String :=
  "\x7b" ++ String.intercalate ", "
    (l.map (fun kv => pyStrRepr kv.1 ++ ": " ++ pyStrRepr kv.2)) ++ "\x7d"

/-- Message of the `RoutingError` raised by `Plugin.url_for` (routing.py
lines 86-87). -/
def urlForMsg (f : Handler) (args : List String)
    (kwargs : List (String × String)) : String :=
  "No known paths to " ++ sQuote ++ f.name ++ sQuote ++ " with args " ++
    pyTupleRepr args ++ " and kwargs " ++ pyDictRepr kwargs

/-- Embedding of `Plugin.url_for` (routing.py lines 77-87): scan the
handler's rules in registration order, return the full URL of the first
generated path, otherwise raise `RoutingError` (also when the handler has
no registered rule). -/
def url_for (table : List (Handler × List UrlRule)) (f : Handler)
    (args : List String) (kwargs : List (String × String))
    (base_url : String) : Except String String :=
  match lookupRules table f with
  | some rs =>
    match firstPath rs args kwargs with
    | some p => Except.ok (urlForPath base_url p)
    | none => Except.error (urlForMsg f args kwargs)
  | none => Except.error (urlForMsg f args kwargs)

/-- Mapping from a regex token to the template token the same placeholder
produces (both substitutions see the same matches on well-formed
patterns). -/
def rtokToTTok : RTok → TTok
  | RTok.lit c => TTok.lit c
  | RTok.seg n => TTok.slot n
  | RTok.pth n => TTok.slot n

/-- Concatenation of the path a rule's placeholders and literals produce
under a value assignment. -/
def renderToksL (rt : List RTok) (v : String → String) : List Char :=
  match rt with
  | [] => []
  | RTok.lit c :: ts => c :: renderToksL ts v
  | RTok.seg n :: ts => (v n).data ++ renderToksL ts v
  | RTok.pth n :: ts => (v n).data ++ renderToksL ts v

/-- Check that a segment placeholder is immediately followed by a literal
`/` (or ends the pattern). -/
def segFollowOk : List RTok → Bool
  | [] => true
  | RTok.lit c :: _ => c == '/'
  | _ => false

/-- Slash-delimited patterns: every segment placeholder is followed by a
literal `/` or ends the pattern, and a path placeholder can only be the
last token.  Under this shape (and `/`-free segment values) matching is
unambiguous, so reverse generation and matching are mutually inverse. -/
def goodToks : List RTok → Bool
  | [] => true
  | RTok.lit _ :: ts => goodToks ts
  | RTok.seg _ :: ts => segFollowOk ts && goodToks ts
  | RTok.pth _ :: ts => ts.isEmpty

/-- Check for two adjacent `/` characters in a string. -/
def hasDoubleSlash : List Char → Bool
  | '/' :: '/' :: _ => true
  | _ :: rest => hasDoubleSlash rest
  | [] => false

/-! Shared helper lemmas. -/

/-- Walking `findSome?` along `[s, s+1, ..., s+n-1]`: if every index below
`k` fails and `k` succeeds, the first success is at `k`. -/
theorem findSome?_range'_eq {α : Type} (f : Nat → Option α) (y : α) :
    ∀ (n s k : Nat), s ≤ k → k < s + n →
      (∀ j, s ≤ j → j < k → f j = none) → f k = some y →
      (List.range' s n).findSome? f = some y := by
  intro n
  induction n with
  | zero => intro s k h1 h2 _ _; omega
  | succ n ih =>
    intro s k h1 h2 hnone hk
    rw [show List.range' s (n + 1) = s :: List.range' (s + 1) n from rfl,
      List.findSome?_cons]
    by_cases hs : s = k
    · subst hs; rw [hk]
    · rw [hnone s le_rfl (by omega)]
      exact ih (s + 1) k (by omega) (by omega)
        (fun j hj1 hj2 => hnone j (by omega) hj2) hk

/-- The `takeWhile` of a list whose left part satisfies the predicate and
whose next element fails it is exactly the left part. -/
theorem takeWhile_append_all {p : Char → Bool} (l₂ : List Char) (a : Char) :
    ∀ l₁ : List Char, (∀ c ∈ l₁, p c = true) → p a = false →
      (l₁ ++ a :: l₂).takeWhile p = l₁ := by
  intro l₁
  induction l₁ with
  | nil => intro _ ha; simp [List.takeWhile, ha]
  | cons c l ih =>
    intro hall ha
    have hc : p c = true := hall c (List.mem_cons_self c l)
    have hstep : (c :: l ++ a :: l₂).takeWhile p
        = c :: ((l ++ a :: l₂).takeWhile p) := by
      simp [List.takeWhile_cons, hc]
    rw [hstep, ih (fun d hd => hall d (List.mem_cons_of_mem c hd)) ha]

/-- Characters of a `take` of a `takeWhile`-bounded prefix satisfy the
predicate. -/
theorem mem_take_le_takeWhile {p : Char → Bool} {ds : List Char} {k : Nat}
    (hk : k ≤ (ds.takeWhile p).length) : ∀ c ∈ ds.take k, p c = true := by
  intro c hc
  have : ds.take k = (ds.takeWhile p).take k := by
    conv_lhs => rw [← List.takeWhile_append_dropWhile (p := p) (l := ds)]
    exact List.take_append_of_le_length hk
  rw [this] at hc
  exact List.mem_takeWhile_imp (List.mem_of_mem_take hc)

/-- A name appearing as a segment group is among the group names. -/
theorem seg_mem_rnames {n : String} :
    ∀ {rt : List RTok}, RTok.seg n ∈ rt → n ∈ rnames rt := by
  intro rt
  induction rt with
  | nil => intro h; cases h
  | cons t ts ih =>
    intro h
    cases t with
    | lit c =>
      simp only [rnames]
      rcases List.mem_cons.1 h with h' | h'
      · cases h'
      · exact ih h'
    | seg m =>
      simp only [rnames]
      rcases List.mem_cons.1 h with h' | h'
      · cases h'; exact List.mem_cons_self _ _
      · exact List.mem_cons_of_mem _ (ih h')
    | pth m =>
      simp only [rnames]
      rcases List.mem_cons.1 h with h' | h'
      · cases h'
      · exact List.mem_cons_of_mem _ (ih h')

/-- Keys of a successful `reMatch` result are exactly the group names in
order. -/
theorem reMatch_keys :
    ∀ (rt : List RTok) (ds : List Char) (m : List (String × String)),
      reMatch rt ds = some m → m.map Prod.fst = rnames rt := by
  intro rt
  induction rt with
  | nil =>
    intro ds m h
    simp only [reMatch] at h
    split at h
    · cases h; rfl
    · cases h
  | cons t ts ih =>
    intro ds m h
    cases t with
    | lit c =>
      cases ds with
      | nil => rw [show reMatch (RTok.lit c :: ts) [] = none from rfl] at h; cases h
      | cons d ds' =>
        rw [show reMatch (RTok.lit c :: ts) (d :: ds')
          = if d = c then reMatch ts ds' else none from rfl] at h
        by_cases hd : d = c
        · rw [if_pos hd] at h; exact ih ds' m h
        · rw [if_neg hd] at h; cases h
    | seg n =>
      simp only [reMatch] at h
      obtain ⟨_, _, _, _, hf, _⟩ := List.findSome?_eq_some_iff.1 h
      obtain ⟨m', hm', rfl⟩ := Option.map_eq_some'.1 hf
      simp only [List.map_cons, rnames]
      rw [ih _ m' hm']
    | pth n =>
      simp only [reMatch] at h
      obtain ⟨_, _, _, _, hf, _⟩ := List.findSome?_eq_some_iff.1 h
      obtain ⟨m', hm', rfl⟩ := Option.map_eq_some'.1 hf
      simp only [List.map_cons, rnames]
      rw [ih _ m' hm']

/-- The `takeWhile` prefix is never longer than the list. -/
theorem length_takeWhile_le' {p : Char → Bool} (ds : List Char) :
    (ds.takeWhile p).length ≤ ds.length := by
  conv_rhs => rw [← List.takeWhile_append_dropWhile (p := p) (l := ds)]
  rw [List.length_append]; omega

/-- Core of claim C10: in any successful match, the capture of a segment
group is found under its name, is non-empty and contains no slash
(provided group names are distinct, which `re.compile` enforces). -/
theorem reMatch_seg_lookup :
    ∀ (rt : List RTok) (ds : List Char) (m : List (String × String)) (n : String),
      reMatch rt ds = some m → (rnames rt).Nodup → RTok.seg n ∈ rt →
      ∃ v, alLookup m n = some v ∧ v ≠ "" ∧ ∀ c ∈ v.data, c ≠ '/' := by
  intro rt
  induction rt with
  | nil => intro ds m n _ _ hmem; cases hmem
  | cons t ts ih =>
    intro ds m n h hnd hmem
    cases t with
    | lit c =>
      cases ds with
      | nil => rw [show reMatch (RTok.lit c :: ts) [] = none from rfl] at h; cases h
      | cons d ds' =>
        rw [show reMatch (RTok.lit c :: ts) (d :: ds')
          = if d = c then reMatch ts ds' else none from rfl] at h
        by_cases hd : d = c
        · rw [if_pos hd] at h
          rcases List.mem_cons.1 hmem with h' | h'
          · cases h'
          · exact ih ds' m n h hnd h'
        · rw [if_neg hd] at h; cases h
    | seg n' =>
      simp only [reMatch] at h
      obtain ⟨l₁, k, l₂, hl, hf, _⟩ := List.findSome?_eq_some_iff.1 h
      obtain ⟨m', hm', hmeq⟩ := Option.map_eq_some'.1 hf
      subst hmeq
      have hkmem : k ∈ List.range' 1 ((ds.takeWhile (fun c => !(c == '/'))).length) := by
        rw [hl]; exact List.mem_append_right _ (List.mem_cons_self _ _)
      obtain ⟨hk1, hk2⟩ := List.mem_range'_1.1 hkmem
      have hkle : k ≤ (ds.takeWhile (fun c => !(c == '/'))).length := by omega
      by_cases hn : n' = n
      · subst hn
        refine ⟨String.mk (ds.take k), by simp [alLookup], ?_, ?_⟩
        · intro hcon
          have hdata : (ds.take k).length = 0 := by
            have : (String.mk (ds.take k)).data = ("" : String).data := by rw [hcon]
            simp at this
            simp [this]
          have : k ≤ ds.length :=
            le_trans hkle (length_takeWhile_le' ds)
          rw [List.length_take] at hdata
          omega
        · intro c hc
          have := mem_take_le_takeWhile hkle c hc
          simp at this
          exact this
      · have hmem' : RTok.seg n ∈ ts := by
          rcases List.mem_cons.1 hmem with h' | h'
          · injection h' with h''; exact absurd h''.symm hn
          · exact h'
        have hnd' : (rnames ts).Nodup := by
          have : (rnames (RTok.seg n' :: ts)).Nodup := hnd
          rw [show rnames (RTok.seg n' :: ts) = n' :: rnames ts from rfl] at this
          exact (List.nodup_cons.1 this).2
        obtain ⟨v, hv, hv2, hv3⟩ := ih _ m' n hm' hnd' hmem'
        exact ⟨v, by simp [alLookup, hn, hv], hv2, hv3⟩
    | pth n' =>
      simp only [reMatch] at h
      obtain ⟨l₁, k, l₂, hl, hf, _⟩ := List.findSome?_eq_some_iff.1 h
      obtain ⟨m', hm', hmeq⟩ := Option.map_eq_some'.1 hf
      subst hmeq
      have hmem' : RTok.seg n ∈ ts := by
        rcases List.mem_cons.1 hmem with h' | h'
        · cases h'
        · exact h'
      have hndc : n' ∉ rnames ts ∧ (rnames ts).Nodup := by
        have : (rnames (RTok.pth n' :: ts)).Nodup := hnd
        rw [show rnames (RTok.pth n' :: ts) = n' :: rnames ts from rfl] at this
        exact List.nodup_cons.1 this
      have hn : n' ≠ n := by
        intro he; subst he
        exact hndc.1 (seg_mem_rnames hmem')
      obtain ⟨v, hv, hv2, hv3⟩ := ih _ m' n hm' hndc.2 hmem'
      exact ⟨v, by simp [alLookup, hn, hv], hv2, hv3⟩

/-- Keywords of a rule whose template is the image of its regex tokens are
the group names. -/
theorem keywords_of_map :
    ∀ rt : List RTok,
      (UrlRule.mk (rt.map rtokToTTok) rt).keywords = rnames rt := by
  intro rt
  induction rt with
  | nil => rfl
  | cons t ts ih =>
    cases t with
    | lit c => simpa [UrlRule.keywords, rtokToTTok, rnames, List.filterMap]
        using ih
    | seg n => simpa [UrlRule.keywords, rtokToTTok, rnames, List.filterMap]
        using ih
    | pth n => simpa [UrlRule.keywords, rtokToTTok, rnames, List.filterMap]
        using ih

/-- Looking a key up in the association list built from a key list and a
value function yields the function's value. -/
theorem alLookup_map_self (v : String → String) (n : String) :
    ∀ l : List String, n ∈ l →
      alLookup (l.map (fun k => (k, v k))) n = some (v n) := by
  intro l
  induction l with
  | nil => intro h; cases h
  | cons k ks ih =>
    intro h
    by_cases hk : k = n
    · subst hk; simp [alLookup]
    · rcases List.mem_cons.1 h with h' | h'
      · exact absurd h'.symm hk
      · simpa [alLookup, hk] using ih h'

/-- Formatting the template derived from regex tokens with an association
list that covers every group name produces exactly the rendered path. -/
theorem renderFormat_map (v : String → String) (kw : List (String × String)) :
    ∀ rt : List RTok, (∀ n ∈ rnames rt, alLookup kw n = some (v n)) →
      ∃ s, renderFormat (rt.map rtokToTTok) kw = some s ∧
        s.data = renderToksL rt v := by
  intro rt
  induction rt with
  | nil => intro _; exact ⟨"", rfl, rfl⟩
  | cons t ts ih =>
    intro hcov
    cases t with
    | lit c =>
      obtain ⟨s, hs, hd⟩ := ih (fun n hn => hcov n hn)
      refine ⟨String.singleton c ++ s, ?_, ?_⟩
      · simp [rtokToTTok, renderFormat, hs]
      · rw [String.data_append, hd]; rfl
    | seg n =>
      have hl : alLookup kw n = some (v n) :=
        hcov n (List.mem_cons_self _ _)
      obtain ⟨s, hs, hd⟩ := ih (fun m hm => hcov m (List.mem_cons_of_mem _ hm))
      refine ⟨v n ++ s, ?_, ?_⟩
      · simp [rtokToTTok, renderFormat, hl, hs]
      · rw [String.data_append, hd]; rfl
    | pth n =>
      have hl : alLookup kw n = some (v n) :=
        hcov n (List.mem_cons_self _ _)
      obtain ⟨s, hs, hd⟩ := ih (fun m hm => hcov m (List.mem_cons_of_mem _ hm))
      refine ⟨v n ++ s, ?_, ?_⟩
      · simp [rtokToTTok, renderFormat, hl, hs]
      · rw [String.data_append, hd]; rfl


/-- Rebuilding a string from its character data is the identity. -/
@[simp] theorem strMkData (s : String) : String.mk s.data = s := rfl

/-- Unfolding equation of `reMatch` on a segment group. -/
theorem reMatch_seg_eq (n : String) (ts : List RTok) (ds : List Char) :
    reMatch (RTok.seg n :: ts) ds
      = (List.range' 1 ((ds.takeWhile (fun c => !(c == '/'))).length)).findSome?
          (fun k => (reMatch ts (ds.drop k)).map
            (fun m => (n, String.mk (ds.take k)) :: m)) := rfl

/-- Unfolding equation of `reMatch` on a path group. -/
theorem reMatch_pth_eq (n : String) (ts : List RTok) (ds : List Char) :
    reMatch (RTok.pth n :: ts) ds
      = ((List.range ((ds.takeWhile (fun c => !(c == '\n'))).length + 1)).reverse).findSome?
          (fun k => (reMatch ts (ds.drop k)).map
            (fun m => (n, String.mk (ds.take k)) :: m)) := rfl

/-- Leftover of a newline-free list after dropping fewer than all its
characters is rejected by the `$` anchor. -/
theorem reMatch_nil_drop_ne (ds : List Char) (j : Nat)
    (hj : j < ds.length) (hnl : ∀ c ∈ ds, c ≠ '\n') :
    reMatch [] (ds.drop j) = none := by
  rw [show reMatch [] (ds.drop j)
    = if ds.drop j = [] ∨ ds.drop j = ['\n'] then some [] else none from rfl]
  rw [if_neg]
  rintro (h | h)
  · have hlen := List.length_drop j ds
    rw [h] at hlen
    simp at hlen
    omega
  · have : '\n' ∈ ds.drop j := by rw [h]; exact List.mem_cons_self _ _
    exact hnl '\n' (List.mem_of_mem_drop this) rfl

/-- Central inverse lemma: on a slash-delimited rule, matching the
rendered path recovers exactly the placeholder values (segment values
non-empty without `/` or newline, path values without newline). -/
theorem reMatch_render (v : String → String) :
    ∀ rt : List RTok, goodToks rt = true →
      (∀ n, RTok.seg n ∈ rt →
        (v n).data ≠ [] ∧ ∀ c ∈ (v n).data, c ≠ '/' ∧ c ≠ '\n') →
      (∀ n, RTok.pth n ∈ rt → ∀ c ∈ (v n).data, c ≠ '\n') →
      reMatch rt (renderToksL rt v)
        = some ((rnames rt).map (fun n => (n, v n))) := by
  intro rt
  induction rt with
  | nil =>
    intro _ _ _
    rfl
  | cons t ts ih =>
    intro hg hseg hpth
    cases t with
    | lit c =>
      have hg' : goodToks ts = true := hg
      rw [show renderToksL (RTok.lit c :: ts) v = c :: renderToksL ts v from rfl]
      rw [show reMatch (RTok.lit c :: ts) (c :: renderToksL ts v)
        = if c = c then reMatch ts (renderToksL ts v) else none from rfl]
      rw [if_pos rfl]
      rw [show rnames (RTok.lit c :: ts) = rnames ts from rfl]
      exact ih hg' (fun n hn => hseg n (List.mem_cons_of_mem _ hn))
        (fun n hn => hpth n (List.mem_cons_of_mem _ hn))
    | seg n =>
      obtain ⟨hvne, hvchars⟩ := hseg n (List.mem_cons_self _ _)
      have hvpos : 0 < (v n).data.length := List.length_pos.2 hvne
      cases hts : ts with
      | nil =>
        subst hts
        rw [show renderToksL (RTok.seg n :: []) v
          = (v n).data ++ renderToksL [] v from rfl]
        rw [show renderToksL ([] : List RTok) v = [] from rfl, List.append_nil]
        rw [reMatch_seg_eq]
        have htw : ((v n).data.takeWhile (fun c => !(c == '/'))) = (v n).data :=
          List.takeWhile_eq_self_iff.2
            (fun c hc => by simp [beq_eq_false_iff_ne.2 (hvchars c hc).1])
        rw [htw]
        apply findSome?_range'_eq _ _ _ 1 ((v n).data.length)
          (by omega) (by omega)
        · intro j hj1 hj2
          rw [reMatch_nil_drop_ne _ j (by omega)
            (fun c hc => (hvchars c hc).2)]
          rfl
        · rw [List.drop_length]
          rw [show reMatch ([] : List RTok) ([] : List Char) = some [] from rfl]
          rw [List.take_length]
          rfl
      | cons t' ts' =>
        subst hts
        have hgood : segFollowOk (t' :: ts') = true
            ∧ goodToks (t' :: ts') = true := by
          have hh : (segFollowOk (t' :: ts') && goodToks (t' :: ts')) = true := hg
          exact Bool.and_eq_true_iff.1 hh
        cases t' with
        | seg m => simp [segFollowOk] at hgood
        | pth m => simp [segFollowOk] at hgood
        | lit c =>
          have hc : c = '/' := eq_of_beq hgood.1
          subst hc
          have ihts : reMatch (RTok.lit '/' :: ts')
              (renderToksL (RTok.lit '/' :: ts') v)
              = some ((rnames (RTok.lit '/' :: ts')).map (fun m => (m, v m))) :=
            ih hgood.2 (fun m hm => hseg m (List.mem_cons_of_mem _ hm))
              (fun m hm => hpth m (List.mem_cons_of_mem _ hm))
          rw [show renderToksL (RTok.seg n :: RTok.lit '/' :: ts') v
            = (v n).data ++ renderToksL (RTok.lit '/' :: ts') v from rfl]
          rw [reMatch_seg_eq]
          have htw : (((v n).data ++ renderToksL (RTok.lit '/' :: ts') v).takeWhile
              (fun c => !(c == '/'))) = (v n).data := by
            rw [show renderToksL (RTok.lit '/' :: ts') v
              = '/' :: renderToksL ts' v from rfl]
            exact takeWhile_append_all _ _ _
              (fun c hc => by simp [beq_eq_false_iff_ne.2 (hvchars c hc).1])
              (by simp)
          rw [htw]
          rw [show rnames (RTok.seg n :: RTok.lit '/' :: ts')
            = n :: rnames (RTok.lit '/' :: ts') from rfl]
          apply findSome?_range'_eq _ _ _ 1 ((v n).data.length)
            (by omega) (by omega)
          · intro j hj1 hj2
            rw [List.drop_append_of_le_length (by omega)]
            rw [List.drop_eq_getElem_cons (by omega : j < (v n).data.length)]
            rw [List.cons_append]
            have hne : (v n).data[j] ≠ '/' :=
              (hvchars _ (List.getElem_mem _)).1
            rw [show reMatch (RTok.lit '/' :: ts')
                ((v n).data[j] :: (List.drop (j + 1) (v n).data
                  ++ renderToksL (RTok.lit '/' :: ts') v))
              = if (v n).data[j] = '/' then
                  reMatch ts' (List.drop (j + 1) (v n).data
                    ++ renderToksL (RTok.lit '/' :: ts') v)
                else none from rfl]
            rw [if_neg hne]
            rfl
          · rw [show (v n).data.length = ((v n).data).length from rfl]
            rw [List.drop_left, List.take_left]
            rw [ihts]
            rfl
    | pth n =>
      have hts : ts = [] := by
        have hh : ts.isEmpty = true := hg
        exact List.isEmpty_iff.1 hh
      subst hts
      have hvnl : ∀ c ∈ (v n).data, c ≠ '\n' :=
        hpth n (List.mem_cons_self _ _)
      rw [show renderToksL (RTok.pth n :: []) v
        = (v n).data ++ renderToksL [] v from rfl]
      rw [show renderToksL ([] : List RTok) v = [] from rfl, List.append_nil]
      rw [reMatch_pth_eq]
      have htw : ((v n).data.takeWhile (fun c => !(c == '\n'))) = (v n).data :=
        List.takeWhile_eq_self_iff.2
          (fun c hc => by simp [beq_eq_false_iff_ne.2 (hvnl c hc)])
      rw [htw]
      rw [show List.range ((v n).data.length + 1)
        = List.range ((v n).data.length) ++ [(v n).data.length]
        from List.range_succ _]
      rw [List.reverse_append]
      rw [show (([(v n).data.length] : List Nat).reverse
          ++ (List.range ((v n).data.length)).reverse : List Nat)
        = (v n).data.length :: (List.range ((v n).data.length)).reverse from rfl]
      rw [List.findSome?_cons]
      rw [List.drop_length]
      rw [show reMatch ([] : List RTok) ([] : List Char) = some [] from rfl]
      rw [List.take_length]
      rfl

/-- When every rule of a list fails to generate, the scan fails. -/
theorem firstPath_none_of_all (args : List String)
    (kwargs : List (String × String)) :
    ∀ rs : List UrlRule, (∀ r ∈ rs, r.make_path args kwargs = none) →
      firstPath rs args kwargs = none := by
  intro rs
  induction rs with
  | nil => intro _; rfl
  | cons r rest ih =>
    intro hall
    rw [show firstPath (r :: rest) args kwargs
      = match r.make_path args kwargs with
        | some p => some p
        | none => firstPath rest args kwargs from rfl]
    rw [hall r (List.mem_cons_self _ _)]
    exact ih (fun r' hr' => hall r' (List.mem_cons_of_mem _ hr'))

/-- When every rule of a list fails to match, the scan fails. -/
theorem firstRuleMatch_none_of_all (path : String) :
    ∀ rs : List UrlRule, (∀ r ∈ rs, r.matchPath path = none) →
      firstRuleMatch rs path = none := by
  intro rs
  induction rs with
  | nil => intro _; rfl
  | cons r rest ih =>
    intro hall
    rw [show firstRuleMatch (r :: rest) path
      = match r.matchPath path with
        | some kw => some kw
        | none => firstRuleMatch rest path from rfl]
    rw [hall r (List.mem_cons_self _ _)]
    exact ih (fun r' hr' => hall r' (List.mem_cons_of_mem _ hr'))

/-- Unfolding equation of `dispatchRun` on a non-empty table. -/
theorem dispatchRun_cons (f : Handler) (rs : List UrlRule)
    (rest : List (Handler × List UrlRule)) (path : String) :
    dispatchRun ((f, rs) :: rest) path
      = match firstRuleMatch rs path with
        | some kw => ([(f, kw)], false)
        | none => dispatchRun rest path := rfl

/-- Dropping a predicate's prefix twice is the same as dropping it once. -/
theorem dropWhile_idem {q : Char → Bool} (l : List Char) :
    (l.dropWhile q).dropWhile q = l.dropWhile q := by
  cases h : l.dropWhile q with
  | nil => rfl
  | cons a t =>
    have hq := List.head?_dropWhile_not q l
    rw [h] at hq
    simp only [List.head?_cons] at hq
    rw [List.dropWhile_cons, if_neg (by simp [hq])]

/-! Claim theorems. -/

/-- C2: the pattern `/videos/<path:rest>` matches the path `/videos/a/b/c`
yielding `rest = "a/b/c"`, while `/videos/<name>` does not match that path
(a segment placeholder never spans `/`) and does match a single segment;
`<name>` and `<string:name>` compile to identical rules. -/
theorem claim_C2_placeholder_kinds :
    (urlRule "/videos/<path:rest>").matchPath "/videos/a/b/c"
        = some [("rest", "a/b/c")]
      ∧ (urlRule "/videos/<name>").matchPath "/videos/a/b/c" = none
      ∧ urlRule "/videos/<name>" = urlRule "/videos/<string:name>"
      ∧ (urlRule "/videos/<name>").matchPath "/videos/abc"
        = some [("name", "abc")] := by
  decide

/-- C5: supplying both positional and keyword arguments to `make_path`
yields `None` for every compiled rule; the guard returns before any
formatting, so no exception can escape. -/
theorem claim_C5_args_and_kwargs (r : UrlRule) (args : List String)
    (kwargs : List (String × String)) (h1 : args ≠ []) (h2 : kwargs ≠ []) :
    r.make_path args kwargs = none := by
  unfold UrlRule.make_path
  rw [if_pos ⟨h1, h2⟩]

/-- Witness for C5 on the rule of `/item/<id>` with one positional and one
keyword argument. -/
theorem claim_C5_witness :
    (["7"] : List String) ≠ []
      ∧ ([("a", "b")] : List (String × String)) ≠ []
      ∧ (urlRule "/item/<id>").make_path ["7"] [("a", "b")] = none :=
  ⟨by decide, by decide,
    claim_C5_args_and_kwargs (urlRule "/item/<id>") ["7"] [("a", "b")]
      (by decide) (by decide)⟩

/-- C8 counterexample: compilation's `pattern.rstrip('/')` removes every
trailing slash, so `/a//` is stripped to `/a`, not to `/a/` as the claim
("retains all but the last") states. -/
theorem claim_C8_counterexample :
    rstripSlashes "/a//" = "/a" ∧ rstripSlashes "/a//" ≠ "/a/" := by
  decide

/-- C8 amended: pattern compilation strips ALL trailing `/` characters:
the original pattern is the stripped pattern followed by some number of
slashes, the stripped pattern never ends in `/`, and compiling a pattern
gives the same rule as compiling its stripped form. -/
theorem claim_C8_rstrip_all (p : String) :
    urlRule p = urlRule (rstripSlashes p)
      ∧ (rstripSlashes p).data.getLast? ≠ some '/'
      ∧ ∃ k, p.data = (rstripSlashes p).data ++ List.replicate k '/' := by
  refine ⟨?_, ?_, ?_⟩
  · have hidem : rstripSlashes (rstripSlashes p) = rstripSlashes p := by
      apply String.ext
      show ((String.mk ((p.data.reverse.dropWhile (fun c => c == '/')).reverse)).data.reverse.dropWhile
        (fun c => c == '/')).reverse = (p.data.reverse.dropWhile (fun c => c == '/')).reverse
      rw [show (String.mk ((p.data.reverse.dropWhile (fun c => c == '/')).reverse)).data
        = (p.data.reverse.dropWhile (fun c => c == '/')).reverse from rfl]
      rw [List.reverse_reverse, dropWhile_idem]
    show urlRule p = urlRule (rstripSlashes p)
    unfold urlRule
    rw [hidem]
  · rw [show (rstripSlashes p).data
      = (p.data.reverse.dropWhile (fun c => c == '/')).reverse from rfl]
    rw [List.getLast?_reverse]
    have hq := List.head?_dropWhile_not (fun c => c == '/') p.data.reverse
    cases h : (p.data.reverse.dropWhile (fun c => c == '/')).head? with
    | none => simp
    | some a =>
      rw [h] at hq
      intro hcon
      have ha : a = '/' := by injection hcon
      subst ha
      simp at hq
  · refine ⟨(p.data.reverse.takeWhile (fun c => c == '/')).length, ?_⟩
    conv_lhs => rw [← List.reverse_reverse p.data,
      ← List.takeWhile_append_dropWhile (p := fun c => c == '/')
        (l := p.data.reverse)]
    rw [List.reverse_append]
    rw [show (rstripSlashes p).data
      = (p.data.reverse.dropWhile (fun c => c == '/')).reverse from rfl]
    congr 1
    have : ∀ b ∈ (p.data.reverse.takeWhile (fun c => c == '/')).reverse,
        b = '/' := by
      intro b hb
      rw [List.mem_reverse] at hb
      have hb' := List.mem_takeWhile_imp (p := fun c => c == '/') hb
      exact eq_of_beq hb'
    have hrep := List.eq_replicate_length.2 this
    rw [List.length_reverse] at hrep
    exact hrep

/-- Witness for the amended C8 at the pattern `/a//`. -/
theorem claim_C8_witness :
    urlRule "/a//" = urlRule (rstripSlashes "/a//")
      ∧ (rstripSlashes "/a//").data.getLast? ≠ some '/'
      ∧ ∃ k, ("/a//" : String).data
          = (rstripSlashes "/a//").data ++ List.replicate k '/' :=
  claim_C8_rstrip_all "/a//"

/-- C9 counterexample: `url_for_path` only prepends a missing `/` and
never collapses slashes, so for the path `//a` the part after the base
URL begins with two slashes — refuting "a single leading `/` after the
base URL and no double slashes". -/
theorem claim_C9_counterexample :
    urlForPath "plugin://plugin.foo.bar" "//a" = "plugin://plugin.foo.bar//a"
      ∧ hasDoubleSlash ((urlForPath "plugin://plugin.foo.bar" "//a").data.drop
          ("plugin://plugin.foo.bar" : String).data.length) = true := by
  decide

/-- C9 amended: `url_for_path` is the pure string operation returning the
base URL followed by the path, with one `/` prepended exactly when the
path does not already start with `/`; the appended part always starts
with `/`, but slashes already present are preserved unchanged. -/
theorem claim_C9_url_for_path (base p : String) :
    (startsWithSlash p = true → urlForPath base p = base ++ p)
      ∧ (startsWithSlash p = false → urlForPath base p = base ++ "/" ++ p)
      ∧ ∃ rest, (urlForPath base p).data = base.data ++ '/' :: rest := by
  cases h : startsWithSlash p with
  | true =>
    refine ⟨fun _ => ?_, fun hc => ?_, ?_⟩
    · simp [urlForPath, h]
    · simp at hc
    · cases hd : p.data with
      | nil =>
        exfalso
        unfold startsWithSlash at h
        rw [hd] at h
        cases h
      | cons c t =>
        have hc : c = '/' := by
          unfold startsWithSlash at h
          rw [hd] at h
          exact eq_of_beq h
        subst hc
        refine ⟨t, ?_⟩
        rw [show urlForPath base p = base ++ p from by simp [urlForPath, h]]
        rw [String.data_append, hd]
  | false =>
    refine ⟨fun hc => ?_, fun _ => ?_, ?_⟩
    · simp at hc
    · simp [urlForPath, h, String.append_assoc]
    · refine ⟨p.data, ?_⟩
      rw [show urlForPath base p = base ++ ("/" ++ p)
        from by simp [urlForPath, h]]
      rw [String.data_append, String.data_append]
      rfl

/-- Witness for the amended C9 at base `plugin://plugin.foo.bar` and path
`x` (no leading slash). -/
theorem claim_C9_witness :
    urlForPath "plugin://plugin.foo.bar" "x" = "plugin://plugin.foo.bar" ++ "/" ++ "x"
      ∧ ∃ rest, (urlForPath "plugin://plugin.foo.bar" "x").data
          = ("plugin://plugin.foo.bar" : String).data ++ '/' :: rest :=
  ⟨(claim_C9_url_for_path "plugin://plugin.foo.bar" "x").2.1 (by decide),
    (claim_C9_url_for_path "plugin://plugin.foo.bar" "x").2.2⟩

/-- C3: when no registered rule of any handler matches the path, dispatch
raises `RoutingError` with an empty invocation trace; and in every case
at most one handler is invoked per dispatch call. -/
theorem claim_C3_dispatch (table : List (Handler × List UrlRule))
    (path : String) :
    ((∀ pr ∈ table, ∀ r ∈ pr.2, r.matchPath path = none) →
        dispatchRun table path = ([], true))
      ∧ (dispatchRun table path).1.length ≤ 1 := by
  induction table with
  | nil => exact ⟨fun _ => rfl, by simp [dispatchRun]⟩
  | cons pr rest ih =>
    obtain ⟨f, rs⟩ := pr
    constructor
    · intro hall
      have h1 : firstRuleMatch rs path = none :=
        firstRuleMatch_none_of_all path rs
          (fun r hr => hall (f, rs) (List.mem_cons_self _ _) r hr)
      rw [dispatchRun_cons, h1]
      exact ih.1 (fun pr' hpr' r hr => hall pr' (List.mem_cons_of_mem _ hpr') r hr)
    · rw [dispatchRun_cons]
      cases hm : firstRuleMatch rs path with
      | some kw => simp
      | none => exact ih.2

/-- Witness for C3 on a one-handler table whose only pattern `/x` does not
match the path `/y`. -/
theorem claim_C3_witness :
    dispatchRun [(⟨0, "h"⟩, [urlRule "/x"])] "/y" = ([], true)
      ∧ (dispatchRun [(⟨0, "h"⟩, [urlRule "/x"])] "/y").1.length ≤ 1 := by
  refine ⟨(claim_C3_dispatch _ _).1 ?_, (claim_C3_dispatch _ _).2⟩
  intro pr hpr r hr
  rw [List.mem_singleton] at hpr
  subst hpr
  rw [List.mem_singleton] at hr
  subst hr
  decide

/-- C4: with the patterns `/item/<id>` then `/item/<id>/<variant>`
registered for a handler, `url_for` with `id = "7"` returns the URL built
from the first pattern; in general, when the first registered rule can
generate a path, that path is the one returned, regardless of later
rules. -/
theorem claim_C4_url_for_order :
    (url_for [(⟨0, "H"⟩, [urlRule "/item/<id>", urlRule "/item/<id>/<variant>"])]
        ⟨0, "H"⟩ [] [("id", "7")] "plugin://plugin.foo.bar"
      = Except.ok "plugin://plugin.foo.bar/item/7")
    ∧ ∀ (f : Handler) (r1 : UrlRule) (rest : List UrlRule)
        (args : List String) (kwargs : List (String × String)) (p base : String),
        r1.make_path args kwargs = some p →
        url_for [(f, r1 :: rest)] f args kwargs base
          = Except.ok (urlForPath base p) := by
  constructor
  · rfl
  · intro f r1 rest args kwargs p base h
    have hfp : firstPath (r1 :: rest) args kwargs = some p := by
      rw [show firstPath (r1 :: rest) args kwargs
        = match r1.make_path args kwargs with
          | some q => some q
          | none => firstPath rest args kwargs from rfl]
      rw [h]
    unfold url_for
    rw [show lookupRules [(f, r1 :: rest)] f = some (r1 :: rest)
      from by simp [lookupRules]]
    show (match firstPath (r1 :: rest) args kwargs with
      | some q => Except.ok (urlForPath base q)
      | none => Except.error (urlForMsg f args kwargs))
      = Except.ok (urlForPath base p)
    rw [hfp]

/-- Witness for the general part of C4: one registered rule `/g/<x>`
generating `/g/1`. -/
theorem claim_C4_witness :
    url_for [(⟨1, "G"⟩, [urlRule "/g/<x>"])] ⟨1, "G"⟩ [] [("x", "1")] "b"
      = Except.ok (urlForPath "b" "/g/1") :=
  claim_C4_url_for_order.2 ⟨1, "G"⟩ (urlRule "/g/<x>") [] [] [("x", "1")]
    "/g/1" "b" (by decide)

/-- C6: keyword-mode `make_path` substitutes placeholder-named values into
the template and serializes the remaining keyword values as a URL-encoded
query string after `?` (only when at least one extra key exists);
concretely `/show/<id>` with `id = "42"`, `sort = "asc"` generates
`/show/42?sort=asc`. -/
theorem claim_C6_query_string :
    ((urlRule "/show/<id>").make_path [] [("id", "42"), ("sort", "asc")]
        = some "/show/42?sort=asc")
    ∧ ∀ (r : UrlRule) (kwargs : List (String × String)) (p : String),
        r.make_path [] kwargs = some p →
        ∃ base, renderFormat r.template
            (kwargs.filter (fun kv => r.keywords.contains kv.1)) = some base
          ∧ p = base ++
              (if (kwargs.filter (fun kv => !(r.keywords.contains kv.1))).isEmpty
               then ""
               else "?" ++ urlencode
                 (kwargs.filter (fun kv => !(r.keywords.contains kv.1)))) := by
  constructor
  · decide
  · intro r kwargs p h
    unfold UrlRule.make_path at h
    rw [if_neg (by simp)] at h
    rw [if_neg (by simp)] at h
    cases hrf : renderFormat r.template
        (kwargs.filter (fun kv => r.keywords.contains kv.1)) with
    | none => rw [hrf] at h; cases h
    | some s =>
      rw [hrf] at h
      refine ⟨s, rfl, ?_⟩
      cases h
      rfl

/-- Witness for the general part of C6 on the rule of `/a/<x>` with the
single keyword `x = "1"` (no extras, hence no query string). -/
theorem claim_C6_witness :
    ∃ base, renderFormat (urlRule "/a/<x>").template
        (([("x", "1")] : List (String × String)).filter
          (fun kv => (urlRule "/a/<x>").keywords.contains kv.1)) = some base
      ∧ "/a/1" = base ++
          (if (([("x", "1")] : List (String × String)).filter
              (fun kv => !((urlRule "/a/<x>").keywords.contains kv.1))).isEmpty
           then ""
           else "?" ++ urlencode
             (([("x", "1")] : List (String × String)).filter
               (fun kv => !((urlRule "/a/<x>").keywords.contains kv.1)))) :=
  claim_C6_query_string.2 (urlRule "/a/<x>") [("x", "1")] "/a/1" (by decide)

/-- C7: whenever a handler has no registered rule — or none of its rules
can generate a path from the supplied arguments — `url_for` raises a
`RoutingError` whose message contains the handler's name and the reprs of
the supplied positional and keyword arguments. -/
theorem claim_C7_url_for_error (table : List (Handler × List UrlRule))
    (f : Handler) (args : List String) (kwargs : List (String × String))
    (base : String)
    (h : ∀ rs, lookupRules table f = some rs →
      ∀ r ∈ rs, r.make_path args kwargs = none) :
    url_for table f args kwargs base
        = Except.error (urlForMsg f args kwargs)
      ∧ (∃ a b, urlForMsg f args kwargs = a ++ f.name ++ b)
      ∧ (∃ c d, urlForMsg f args kwargs = c ++ pyTupleRepr args ++ d)
      ∧ (∃ e g, urlForMsg f args kwargs = e ++ pyDictRepr kwargs ++ g) := by
  refine ⟨?_, ?_, ?_, ?_⟩
  · unfold url_for
    cases hlk : lookupRules table f with
    | none => rfl
    | some rs =>
      show (match firstPath rs args kwargs with
        | some q => Except.ok (urlForPath base q)
        | none => Except.error (urlForMsg f args kwargs))
        = Except.error (urlForMsg f args kwargs)
      rw [firstPath_none_of_all args kwargs rs (h rs hlk)]
  · refine ⟨"No known paths to " ++ sQuote,
      sQuote ++ " with args " ++ pyTupleRepr args
        ++ " and kwargs " ++ pyDictRepr kwargs, ?_⟩
    simp [urlForMsg, String.append_assoc]
  · refine ⟨"No known paths to " ++ sQuote ++ f.name ++ sQuote ++ " with args ",
      " and kwargs " ++ pyDictRepr kwargs, ?_⟩
    simp [urlForMsg, String.append_assoc]
  · refine ⟨"No known paths to " ++ sQuote ++ f.name ++ sQuote ++ " with args "
      ++ pyTupleRepr args ++ " and kwargs ", "", ?_⟩
    simp [urlForMsg, String.append_assoc, String.append_empty]

/-- Witness for C7: a handler with no registered route at all. -/
theorem claim_C7_witness :
    url_for [] ⟨0, "foo"⟩ [] [] "b"
        = Except.error (urlForMsg ⟨0, "foo"⟩ [] [])
      ∧ (∃ a b, urlForMsg ⟨0, "foo"⟩ [] [] = a ++ (⟨0, "foo"⟩ : Handler).name ++ b)
      ∧ (∃ c d, urlForMsg ⟨0, "foo"⟩ [] [] = c ++ pyTupleRepr [] ++ d)
      ∧ (∃ e g, urlForMsg ⟨0, "foo"⟩ [] [] = e ++ pyDictRepr [] ++ g) :=
  claim_C7_url_for_error [] ⟨0, "foo"⟩ [] [] "b"
    (fun rs hrs => by cases hrs)

/-- C10: whenever `match` succeeds, the value extracted for a segment
placeholder is a non-empty string containing no `/` (group names are
distinct, as `re.compile` requires). -/
theorem claim_C10_segment_values (r : UrlRule) (path : String)
    (m : List (String × String)) (n : String)
    (h : r.matchPath path = some m) (hnd : (rnames r.rtoks).Nodup)
    (hseg : RTok.seg n ∈ r.rtoks) :
    ∃ v, alLookup m n = some v ∧ v ≠ "" ∧ ∀ c ∈ v.data, c ≠ '/' :=
  reMatch_seg_lookup r.rtoks path.data m n h hnd hseg

/-- Witness for C10 on the rule of `/a/<x>` matching `/a/hello`. -/
theorem claim_C10_witness :
    ∃ v, alLookup [("x", "hello")] "x" = some v ∧ v ≠ ""
      ∧ ∀ c ∈ v.data, c ≠ '/' :=
  claim_C10_segment_values (urlRule "/a/<x>") "/a/hello" [("x", "hello")] "x"
    (by decide) (by decide) (by decide)

/-- C1 counterexample: for the compiled pattern `/<a><b>` and the keyword
mapping `a = "pq"`, `b = "r"` (non-empty values without `/`, covering all
placeholders), `make_path` produces `/pqr`, but matching `/pqr` returns
`a = "p"`, `b = "qr"` — not the original mapping, because the two lazy
adjacent groups split the text differently. -/
theorem claim_C1_counterexample :
    (urlRule "/<a><b>").make_path [] [("a", "pq"), ("b", "r")] = some "/pqr"
      ∧ (urlRule "/<a><b>").matchPath "/pqr" = some [("a", "p"), ("b", "qr")]
      ∧ ([("a", "p"), ("b", "qr")] : List (String × String))
          ≠ [("a", "pq"), ("b", "r")] := by
  decide

/-- C1 amended: for every compiled rule that is slash-delimited (each
segment placeholder immediately followed by a literal `/` or ending the
pattern, a path placeholder only in final position — the shape in which
matching is unambiguous) and every assignment of values to exactly its
placeholders — segment values non-empty without `/` or newline, path
values without newline — keyword-mode `make_path` succeeds and `match` on
the produced path returns exactly the original mapping. -/
theorem claim_C1_roundtrip (rt : List RTok) (v : String → String)
    (hg : goodToks rt = true)
    (hseg : ∀ n, RTok.seg n ∈ rt →
      (v n).data ≠ [] ∧ ∀ c ∈ (v n).data, c ≠ '/' ∧ c ≠ '\n')
    (hpth : ∀ n, RTok.pth n ∈ rt → ∀ c ∈ (v n).data, c ≠ '\n') :
    ∃ p, (UrlRule.mk (rt.map rtokToTTok) rt).make_path []
        ((rnames rt).map (fun k => (k, v k))) = some p
      ∧ (UrlRule.mk (rt.map rtokToTTok) rt).matchPath p
        = some ((rnames rt).map (fun k => (k, v k))) := by
  have hkeys : (UrlRule.mk (rt.map rtokToTTok) rt).keywords = rnames rt :=
    keywords_of_map rt
  have hcov : ∀ n ∈ rnames rt,
      alLookup ((rnames rt).map (fun k => (k, v k))) n = some (v n) :=
    fun n hn => alLookup_map_self v n _ hn
  obtain ⟨s, hs, hd⟩ := renderFormat_map v _ rt hcov
  have hfilter : ((rnames rt).map (fun k => (k, v k))).filter
      (fun kv => (UrlRule.mk (rt.map rtokToTTok) rt).keywords.contains kv.1)
      = (rnames rt).map (fun k => (k, v k)) := by
    rw [List.filter_eq_self]
    intro kv hkv
    obtain ⟨k, hk, rfl⟩ := List.mem_map.1 hkv
    rw [hkeys]
    simpa using hk
  have hqs : ((rnames rt).map (fun k => (k, v k))).filter
      (fun kv => !((UrlRule.mk (rt.map rtokToTTok) rt).keywords.contains kv.1))
      = [] := by
    rw [List.filter_eq_nil_iff]
    intro kv hkv
    obtain ⟨k, hk, rfl⟩ := List.mem_map.1 hkv
    rw [hkeys]
    simpa using hk
  refine ⟨s, ?_, ?_⟩
  · unfold UrlRule.make_path
    rw [if_neg (by simp)]
    rw [if_neg (by simp)]
    rw [hfilter, hqs]
    rw [show renderFormat (UrlRule.mk (rt.map rtokToTTok) rt).template
      ((rnames rt).map (fun k => (k, v k))) = some s from hs]
    simp [String.append_empty]
  · show reMatch rt s.data = some ((rnames rt).map (fun k => (k, v k)))
    rw [hd]
    exact reMatch_render v rt hg hseg hpth

/-- Witness for the amended C1 on the rule of tokens `/<a>` with value
`x` for the placeholder `a`. -/
theorem claim_C1_witness :
    ∃ p, (UrlRule.mk ([RTok.lit '/', RTok.seg "a"].map rtokToTTok)
        [RTok.lit '/', RTok.seg "a"]).make_path []
        ((rnames [RTok.lit '/', RTok.seg "a"]).map
          (fun k => (k, (fun _ => "x") k))) = some p
      ∧ (UrlRule.mk ([RTok.lit '/', RTok.seg "a"].map rtokToTTok)
          [RTok.lit '/', RTok.seg "a"]).matchPath p
        = some ((rnames [RTok.lit '/', RTok.seg "a"]).map
          (fun k => (k, (fun _ => "x") k))) :=
  claim_C1_roundtrip [RTok.lit '/', RTok.seg "a"] (fun _ => "x")
    (by decide)
    (by
      intro n hn
      simp only [List.mem_cons, List.not_mem_nil, or_false] at hn
      rcases hn with hn | hn
      · cases hn
      · cases hn
        exact ⟨by decide, by decide⟩)
    (by
      intro n hn
      simp only [List.mem_cons, List.not_mem_nil, or_false] at hn
      rcases hn with hn | hn
      · cases hn
      · cases hn)
